import Mathlib

/-!
# Verification of the profile ingestion and normalization pipeline

Shallow embedding of `cv_template/batch_generate_cv.py` (and the merge logic
shared with `cv_template/data/merge_all_profiles.py`).

Python dictionaries with string keys are modelled as insertion-ordered
association lists over a JSON-like value type `JValue`.  File-system
behaviour (`os.path.exists`, `os.listdir`, `os.path.isdir`) is abstracted
into explicit oracle parameters; everything else is transliterated from the
source.
-/

set_option maxHeartbeats 1600000

namespace BatchGenerateCv

/-- JSON-like values, the payloads of profile records.  Python `dict`s are
insertion-ordered association lists; JSON numbers are modelled as integers
(the profile data never uses fractional numbers). -/
inductive JValue where
  | null : JValue
  | bool : Bool → JValue
  | num : Int → JValue
  | str : String → JValue
  | arr : List JValue → JValue
  | obj : List (String × JValue) → JValue

/-- A profile record: a Python dict from string keys to JSON-like values. -/
abbrev Profile := List (String × JValue)

/-- Lookup `d[k]` on a Python dict (first binding wins; real dicts have
unique keys). -/
def lookup' (p : Profile) (k : String) : Option JValue :=
  match p with
  | [] => none
  | (k', v) :: rest => if k' = k then some v else lookup' rest k

/-- Python dict assignment `d[k] = v`: replaces the value in place if the key
exists (keeping its position), otherwise appends the new binding at the end,
matching insertion-order semantics. -/
def dictSet (p : Profile) (k : String) (v : JValue) : Profile :=
  match p with
  | [] => [(k, v)]
  | (k', v') :: rest => if k' = k then (k, v) :: rest else (k', v') :: dictSet rest k v

/-- Python truthiness `bool(x)` on a JSON-like value. -/
def pyTruthy : JValue → Bool
  | JValue.null => false
  | JValue.bool b => b
  | JValue.num n => n ≠ 0
  | JValue.str s => s ≠ ""
  | JValue.arr xs => !xs.isEmpty
  | JValue.obj fs => !fs.isEmpty

/-- The membership test `v in (None, '', [])` from `validate_profile`
(line 49): Python `==` against `None`, the empty string and the empty list.
Note an empty dict `{}` does not equal any of the three. -/
def isMissingValue : JValue → Bool
  | JValue.null => true
  | JValue.str s => s = ""
  | JValue.arr xs => xs.isEmpty
  | _ => false

/-- The list `REQUIRED_KEYS` (line 45): the eight keys the validator requires. -/
def REQUIRED_KEYS : List String :=
  ["nombre", "cargo", "contacto", "resumen", "experiencias", "educacion", "habilidades", "idiomas"]

/-- The validator `validate_profile` (lines 48-50): collects the required keys that are
absent or whose value is `None`/`''`/`[]`, and reports validity as the
emptiness of that list. -/
def validate_profile (p : Profile) : Bool × List String :=
  let missing := REQUIRED_KEYS.filter (fun k =>
    match lookup' p k with
    | none => true
    | some v => isMissingValue v)
  (missing.isEmpty, missing)

/-! ## Concrete profiles used to exercise the validator -/

/-- A profile holding exactly the seven fields named by the spec's validity
invariant (name, title, summary, experience, education, skills, languages),
each present and non-empty — but no `contacto`. -/
def profileSevenFields : Profile :=
  [("nombre", JValue.str "Ana Ruiz"),
   ("cargo", JValue.str "Engineer"),
   ("resumen", JValue.str "x"),
   ("experiencias", JValue.arr [JValue.obj [("puesto", JValue.str "Dev")]]),
   ("educacion", JValue.arr [JValue.obj [("grado", JValue.str "BSc")]]),
   ("habilidades", JValue.arr [JValue.str "Go"]),
   ("idiomas", JValue.obj [("Espanol", JValue.str "Nativo")])]

/-- The same profile with a contact list added and the languages mapping
replaced by a present-but-empty mapping `{}`. -/
def profileEmptyLanguages : Profile :=
  [("nombre", JValue.str "Ana Ruiz"),
   ("cargo", JValue.str "Engineer"),
   ("contacto", JValue.arr [JValue.str "a@x.com"]),
   ("resumen", JValue.str "x"),
   ("experiencias", JValue.arr [JValue.obj [("puesto", JValue.str "Dev")]]),
   ("educacion", JValue.arr [JValue.obj [("grado", JValue.str "BSc")]]),
   ("habilidades", JValue.arr [JValue.str "Go"]),
   ("idiomas", JValue.obj [])]

/-- A fully valid profile (all eight required keys present and non-empty). -/
def profileAllEight : Profile :=
  [("nombre", JValue.str "Ana Ruiz"),
   ("cargo", JValue.str "Engineer"),
   ("contacto", JValue.arr [JValue.str "a@x.com"]),
   ("resumen", JValue.str "x"),
   ("experiencias", JValue.arr [JValue.obj [("puesto", JValue.str "Dev")]]),
   ("educacion", JValue.arr [JValue.obj [("grado", JValue.str "BSc")]]),
   ("habilidades", JValue.arr [JValue.str "Go"]),
   ("idiomas", JValue.obj [("Espanol", JValue.str "Nativo")])]

/-- C3 counterexample: the claim's seven-field characterisation of validity is
wrong on both counts.  A profile with the seven claimed fields present and
non-empty is nonetheless reported invalid (the validator also requires
`contacto`), and a profile whose languages mapping is present but empty is
reported valid (an empty dict is not caught by the `(None, '', [])` test). -/
theorem validate_seven_fields_counterexample :
    validate_profile profileSevenFields = (false, ["contacto"]) ∧
    validate_profile profileEmptyLanguages = (true, []) := by
  constructor <;> rfl

/-- C3 (amended): `validate_profile` reports a profile valid iff every one of
the eight keys of `REQUIRED_KEYS` (the spec's seven plus `contacto`) is
present with a value other than `None`, `''` and `[]`; a present-but-empty
languages mapping is not counted as missing; and every reported missing field
is one of those eight keys, so no field outside them is required. -/
theorem validate_profile_characterization (p : Profile) :
    ((validate_profile p).1 = true ↔
      ∀ k ∈ REQUIRED_KEYS, ∃ v, lookup' p k = some v ∧ isMissingValue v = false) ∧
    (∀ k ∈ (validate_profile p).2, k ∈ REQUIRED_KEYS) ∧
    isMissingValue (JValue.obj []) = false := by
  refine ⟨?_, ?_, rfl⟩
  · simp only [validate_profile, List.isEmpty_iff, List.filter_eq_nil_iff]
    constructor
    · intro h k hk
      have hk' := h k hk
      cases hv : lookup' p k with
      | none => simp [hv] at hk'
      | some v =>
        refine ⟨v, rfl, ?_⟩
        simpa [hv] using hk'
    · intro h k hk
      obtain ⟨v, hv, hmv⟩ := h k hk
      simp [hv, hmv]
  · intro k hk
    simp only [validate_profile] at hk
    exact (List.mem_filter.mp hk).1

/-- C3 witness: the characterisation applied to the concrete fully valid
profile shows it is reported valid. -/
theorem validate_profile_characterization_witness :
    (validate_profile profileAllEight).1 = true :=
  (validate_profile_characterization profileAllEight).1.mpr (by decide)

/-- C8: the validator is a total function of the record (it is a plain Lean
function, mirroring that the Python only performs `in`-tests and `==`-tests
that cannot raise), and any record in which the key `resumen` is absent gets
`resumen` in its missing-field report. -/
theorem validate_profile_missing_resumen (p : Profile)
    (h : lookup' p "resumen" = none) :
    "resumen" ∈ (validate_profile p).2 := by
  simp only [validate_profile]
  refine List.mem_filter.mpr ⟨by decide, ?_⟩
  simp [h]

/-- C8 witness: the empty record lacks `resumen`, and the validator reports it. -/
theorem validate_profile_missing_resumen_witness :
    "resumen" ∈ (validate_profile []).2 :=
  validate_profile_missing_resumen [] rfl

/-! ## Photo compression quality search (`preprocess_photo`, lines 116-128)

The JPEG encoder is abstracted as a function `size : Nat → Nat` from quality
to encoded byte size (the `ImageCodec` collaborator of the spec).  The while
loop is embedded with explicit fuel; each iteration strictly shrinks
`high + 1 - low`, so fuel `56 = 95 + 1 - 40` makes the embedding exact for
the source's fixed bounds. -/

/-- The `while low <= high` loop of `preprocess_photo`: probe the midpoint
quality, remember it as `best` when the encoded size fits, and bisect. -/
def quality_search_loop (size : Nat → Nat) (maxBytes : Nat) :
    Nat → Nat → Nat → Nat → Nat
  | 0, _, _, best => best
  | fuel + 1, low, high, best =>
    if low ≤ high then
      let q := (low + high) / 2
      if size q ≤ maxBytes then quality_search_loop size maxBytes fuel (q + 1) high q
      else quality_search_loop size maxBytes fuel low (q - 1) best
    else best

/-- The quality at which `preprocess_photo` performs its final
`im.save(out_path, quality=best_quality)`: the loop is entered with
`low, high = 40, 95` and `best_quality = high`. -/
def preprocess_photo_best_quality (size : Nat → Nat) (maxBytes : Nat) : Nat :=
  quality_search_loop size maxBytes 56 40 95 95

/-- Size of the file `preprocess_photo` leaves on disk. -/
def preprocess_photo_result_size (size : Nat → Nat) (maxBytes : Nat) : Nat :=
  size (preprocess_photo_best_quality size maxBytes)

/-- Unfolding equation for a spent-fuel loop. -/
theorem quality_search_loop_zero (size : Nat → Nat) (maxBytes low high best : Nat) :
    quality_search_loop size maxBytes 0 low high best = best := rfl

/-- Unfolding equation for one loop iteration. -/
theorem quality_search_loop_succ (size : Nat → Nat) (maxBytes fuel low high best : Nat) :
    quality_search_loop size maxBytes (fuel + 1) low high best =
      if low ≤ high then
        if size ((low + high) / 2) ≤ maxBytes then
          quality_search_loop size maxBytes fuel ((low + high) / 2 + 1) high ((low + high) / 2)
        else quality_search_loop size maxBytes fuel low ((low + high) / 2 - 1) best
      else best := rfl

/-- Main invariant argument for the quality binary search.  With enough fuel,
`low`, `high`, `best` within range, every satisfying quality below `low`
dominated by a genuine `best`, and every quality above `high` failing, the
loop returns the greatest satisfying quality — and returns `best` untouched
when no quality in range satisfies the bound. -/
theorem quality_search_loop_spec (size : Nat → Nat) (maxBytes : Nat)
    (hmono : ∀ a b, a ≤ b → size a ≤ size b) :
    ∀ fuel low high best,
      high + 1 - low ≤ fuel → 40 ≤ low → high ≤ 95 → 40 ≤ best → best ≤ 95 →
      (∀ q, 40 ≤ q → q < low → size q ≤ maxBytes →
        q ≤ best ∧ size best ≤ maxBytes) →
      (∀ q, high < q → q ≤ 95 → maxBytes < size q) →
      (∀ q, 40 ≤ q → q ≤ 95 → size q ≤ maxBytes →
          q ≤ quality_search_loop size maxBytes fuel low high best ∧
          size (quality_search_loop size maxBytes fuel low high best) ≤ maxBytes) ∧
      ((∀ q, 40 ≤ q → q ≤ 95 → maxBytes < size q) →
          quality_search_loop size maxBytes fuel low high best = best) ∧
      40 ≤ quality_search_loop size maxBytes fuel low high best ∧
      quality_search_loop size maxBytes fuel low high best ≤ 95 := by
  intro fuel
  induction fuel with
  | zero =>
    intro low high best hfuel hlow hhigh hbl hbh hbelow habove
    rw [quality_search_loop_zero]
    refine ⟨?_, fun _ => rfl, hbl, hbh⟩
    intro q hq40 hq95 hqsz
    have hqh : q ≤ high := by
      by_contra hc
      have := habove q (by omega) hq95
      omega
    exact hbelow q hq40 (by omega) hqsz
  | succ fuel ih =>
    intro low high best hfuel hlow hhigh hbl hbh hbelow habove
    rw [quality_search_loop_succ]
    by_cases hlh : low ≤ high
    · have hql : low ≤ (low + high) / 2 := by omega
      have hqh : (low + high) / 2 ≤ high := by omega
      rw [if_pos hlh]
      by_cases hsz : size ((low + high) / 2) ≤ maxBytes
      · rw [if_pos hsz]
        have h1 :=
          ih ((low + high) / 2 + 1) high ((low + high) / 2)
            (by omega) (by omega) hhigh (by omega) (by omega)
            (fun q hq40 hql' hqsz => ⟨by omega, hsz⟩) habove
        refine ⟨h1.1, ?_, h1.2.2⟩
        intro hall
        have := hall ((low + high) / 2) (by omega) (by omega)
        omega
      · rw [if_neg hsz]
        have habove' : ∀ q, (low + high) / 2 - 1 < q → q ≤ 95 → maxBytes < size q := by
          intro q hq hq95
          by_cases hqhigh : high < q
          · exact habove q hqhigh hq95
          · have hge : (low + high) / 2 ≤ q := by omega
            have := hmono _ _ hge
            omega
        exact ih low ((low + high) / 2 - 1) best (by omega) hlow (by omega) hbl hbh
          hbelow habove'
    · rw [if_neg hlh]
      refine ⟨?_, fun _ => rfl, hbl, hbh⟩
      intro q hq40 hq95 hqsz
      have : ¬ high < q := by
        intro hc
        have := habove q hc hq95
        omega
      exact hbelow q hq40 (by omega) hqsz

/-- C2 counterexample: with the (monotone) encoded-size function
`fun q => q + 1` and `maxBytes = 0`, no quality in [40, 95] meets the bound,
yet the final save happens at quality 95 — `best_quality` is initialised to
`high` and never updated — not at the lowest tried quality 40 as claimed. -/
theorem preprocess_photo_fallback_counterexample :
    (∀ a b : Nat, a ≤ b → a + 1 ≤ b + 1) ∧
    (∀ q : Nat, ¬ (q + 1 ≤ 0)) ∧
    preprocess_photo_best_quality (fun q => q + 1) 0 = 95 ∧
    preprocess_photo_best_quality (fun q => q + 1) 0 ≠ 40 := by
  refine ⟨fun a b h => by omega, fun q => by omega, rfl, by decide⟩

/-- C2 (amended): for any monotone encoded-size function, if some quality in
[40, 95] achieves size ≤ maxBytes then the file produced is at the highest
such quality and its size meets the bound; if no quality in the range
achieves the bound, the returned file is the one produced at quality 95 (the
initial `best_quality = high`), not at the lowest tried quality 40. -/
theorem preprocess_photo_quality_correct (size : Nat → Nat) (maxBytes : Nat)
    (hmono : ∀ a b, a ≤ b → size a ≤ size b) :
    ((∀ q, 40 ≤ q → q ≤ 95 → maxBytes < size q) →
        preprocess_photo_best_quality size maxBytes = 95) ∧
    (∀ q, 40 ≤ q → q ≤ 95 → size q ≤ maxBytes →
        q ≤ preprocess_photo_best_quality size maxBytes ∧
        preprocess_photo_result_size size maxBytes ≤ maxBytes) ∧
    40 ≤ preprocess_photo_best_quality size maxBytes ∧
    preprocess_photo_best_quality size maxBytes ≤ 95 := by
  have h := quality_search_loop_spec size maxBytes hmono 56 40 95 95
    (by omega) (by omega) (by omega) (by omega) (by omega)
    (fun q _ hq _ => by omega)
    (fun q hq hq95 => by omega)
  exact ⟨h.2.1, fun q h40 h95 hsz => (h.1 q h40 h95 hsz), h.2.2⟩

/-- C2 witness: with the identity size function and `maxBytes = 50`, quality
50 achieves the bound, so the chosen quality dominates 50 and the resulting
size meets the bound. -/
theorem preprocess_photo_quality_correct_witness :
    50 ≤ preprocess_photo_best_quality (fun q => q) 50 ∧
    preprocess_photo_result_size (fun q => q) 50 ≤ 50 :=
  (preprocess_photo_quality_correct (fun q => q) 50 (fun a b h => h)).2.1
    50 (by decide) (by decide) (by decide)

/-! ## `_slug` (lines 240-255)

The Unicode character primitives — the NFKD decomposition map, the
combining-mark class, `str.lower` and `str.isalnum` — are table lookups of
the Unicode character database, so `_slug` is embedded parametrically over
them.  A per-character decomposition map is faithful for this function:
canonical reordering inside NFKD only permutes combining marks, and the very
next line of the source removes every combining mark.  Per-character
lowercasing is faithful on NFKD-normalised combining-stripped text (the one
multi-character lowercase mapping, U+0130, decomposes before lowercasing).
Concrete table-fragment instances below supply the primitive values the
concrete theorems evaluate. -/

/-- Python `'--' in slug`: is there a double hyphen substring? -/
def hasDoubleHyphen : List Char → Bool
  | [] => false
  | a :: rest =>
    match rest with
    | [] => false
    | b :: _ => ((a == '-') && (b == '-')) || hasDoubleHyphen rest

/-- One pass of `slug.replace('--', '-')`: left-to-right, non-overlapping. -/
def replaceDoubleHyphen : List Char → List Char
  | [] => []
  | [c] => [c]
  | a :: b :: t =>
    if (a == '-') && (b == '-') then '-' :: replaceDoubleHyphen t
    else a :: replaceDoubleHyphen (b :: t)

/-- The `while '--' in slug:` loop (lines 253-254), with explicit fuel; each
iteration with a double hyphen present strictly shrinks the list, so fuel
equal to the initial length makes the embedding exact. -/
def collapse_loop : Nat → List Char → List Char
  | 0, cs => cs
  | fuel + 1, cs =>
    if hasDoubleHyphen cs then collapse_loop fuel (replaceDoubleHyphen cs) else cs

/-- Collapse repeated hyphens to single ones (the whole while loop). -/
def collapseHyphens (cs : List Char) : List Char :=
  collapse_loop cs.length cs

/-- The character loop of `_slug` (lines 245-250): keep alphanumerics, map
space/hyphen/underscore to a hyphen, drop everything else.  `pyIsAlnum` is
Python's Unicode `str.isalnum`, a parameter of the embedding. -/
def slugMap (pyIsAlnum : Char → Bool) : List Char → List Char
  | [] => []
  | c :: rest =>
    if pyIsAlnum c then c :: slugMap pyIsAlnum rest
    else if (c == ' ') || (c == '-') || (c == '_') then '-' :: slugMap pyIsAlnum rest
    else slugMap pyIsAlnum rest

/-- Python `str.strip()` on a list of characters. -/
def pyStrip (cs : List Char) : List Char :=
  List.rdropWhile Char.isWhitespace (cs.dropWhile Char.isWhitespace)

/-- Python `str.strip('-')`. -/
def stripHyphens (cs : List Char) : List Char :=
  List.rdropWhile (fun c => c == '-') (cs.dropWhile (fun c => c == '-'))

/-- The function `_slug` (lines 240-255), parameterised over the Unicode
character primitives: NFKD-decompose (`nfkd`) and drop combining marks
(`isCombining`), lowercase (`pyLower`) and strip, keep alphanumerics
(`pyIsAlnum`) and map separators to hyphens, collapse repeated hyphens, strip
boundary hyphens. -/
def _slug (nfkd : Char → List Char) (isCombining : Char → Bool)
    (pyLower : Char → Char) (pyIsAlnum : Char → Bool) (s : String) : String :=
  let s0 := ((s.data.map nfkd).flatten).filter (fun c => !isCombining c)
  let s1 := pyStrip (s0.map pyLower)
  let out := slugMap pyIsAlnum s1
  String.mk (stripHyphens (collapseHyphens out))

/-- The basic-latin instance of the Unicode primitives: no decompositions, no
combining marks, ASCII case mapping and classification — the values the
Unicode tables give on the basic latin range.  The photo-matching embedding
below slugs only such data, where this instance coincides with Python's
`_slug`. -/
def _slug_latin : String → String :=
  _slug (fun c => [c]) (fun _ => false) Char.toLower Char.isAlphanum

/-! ### Character-level bridge lemmas -/

theorem uint32_le_iff (a b : UInt32) : a ≤ b ↔ a.toNat ≤ b.toNat := by
  rw [UInt32.le_def, BitVec.le_def]
  exact Iff.rfl

theorem char_isUpper_iff (c : Char) : c.isUpper = true ↔ 65 ≤ c.toNat ∧ c.toNat ≤ 90 := by
  have h1 : (65 : UInt32).toNat = 65 := rfl
  have h2 : (90 : UInt32).toNat = 90 := rfl
  simp only [Char.isUpper, Bool.and_eq_true, decide_eq_true_eq, ge_iff_le, uint32_le_iff, h1, h2]
  exact Iff.rfl

theorem char_isLower_iff (c : Char) : c.isLower = true ↔ 97 ≤ c.toNat ∧ c.toNat ≤ 122 := by
  have h1 : (97 : UInt32).toNat = 97 := rfl
  have h2 : (122 : UInt32).toNat = 122 := rfl
  simp only [Char.isLower, Bool.and_eq_true, decide_eq_true_eq, ge_iff_le, uint32_le_iff, h1, h2]
  exact Iff.rfl

theorem char_isDigit_iff (c : Char) : c.isDigit = true ↔ 48 ≤ c.toNat ∧ c.toNat ≤ 57 := by
  have h1 : (48 : UInt32).toNat = 48 := rfl
  have h2 : (57 : UInt32).toNat = 57 := rfl
  simp only [Char.isDigit, Bool.and_eq_true, decide_eq_true_eq, ge_iff_le, uint32_le_iff, h1, h2]
  exact Iff.rfl

theorem char_toLower_eq (c : Char) :
    Char.toLower c =
      if 65 ≤ c.toNat ∧ c.toNat ≤ 90 then Char.ofNat (c.toNat + 32) else c := rfl

theorem char_toNat_ofNat_valid {n : Nat} (h : n.isValidChar) : (Char.ofNat n).toNat = n := by
  rw [Char.ofNat, dif_pos h]
  rfl

theorem char_toLower_not_upper (c : Char) : (Char.toLower c).isUpper = false := by
  rw [char_toLower_eq]
  by_cases h : 65 ≤ c.toNat ∧ c.toNat ≤ 90
  · rw [if_pos h]
    have hv : (c.toNat + 32).isValidChar := Or.inl (by omega)
    rw [Bool.eq_false_iff]
    intro hu
    have := (char_isUpper_iff _).mp hu
    rw [char_toNat_ofNat_valid hv] at this
    omega
  · rw [if_neg h]
    rw [Bool.eq_false_iff]
    intro hu
    exact h ((char_isUpper_iff _).mp hu)

theorem char_toLower_eq_self (c : Char) (h : c.isUpper = false) : Char.toLower c = c := by
  rw [char_toLower_eq, if_neg]
  intro hc
  rw [← char_isUpper_iff] at hc
  simp [h] at hc

theorem char_isWhitespace_iff (c : Char) :
    c.isWhitespace = true ↔ c.toNat = 32 ∨ c.toNat = 9 ∨ c.toNat = 13 ∨ c.toNat = 10 := by
  simp only [Char.isWhitespace, Bool.or_eq_true, decide_eq_true_eq]
  have hx : ∀ d : Char, c = d ↔ c.toNat = d.toNat := by
    intro d
    constructor
    · rintro rfl; rfl
    · intro h
      apply Char.ext
      apply UInt32.ext
      simpa [Char.toNat] using h
  have hsp : (' ' : Char).toNat = 32 := rfl
  have hta : ('\t' : Char).toNat = 9 := rfl
  have hcr : ('\r' : Char).toNat = 13 := rfl
  have hnl : ('\n' : Char).toNat = 10 := rfl
  rw [hx ' ', hx '\t', hx '\r', hx '\n', hsp, hta, hcr, hnl]
  tauto

theorem char_toLower_idem (c : Char) : Char.toLower (Char.toLower c) = Char.toLower c :=
  char_toLower_eq_self _ (char_toLower_not_upper c)

theorem char_isAlphanum_not_ws (c : Char) (h : c.isAlphanum = true) :
    c.isWhitespace = false := by
  rw [Bool.eq_false_iff]
  intro hw
  have hn := (char_isWhitespace_iff c).mp hw
  rw [Char.isAlphanum, Bool.or_eq_true, Char.isAlpha, Bool.or_eq_true] at h
  rcases h with (h | h) | h
  · have := (char_isUpper_iff c).mp h
    omega
  · have := (char_isLower_iff c).mp h
    omega
  · have := (char_isDigit_iff c).mp h
    omega

/-! ### Structural lemmas about the slug pipeline -/

theorem mem_slugMap {pyIsAlnum : Char → Bool} {c : Char} :
    ∀ {xs : List Char}, c ∈ slugMap pyIsAlnum xs →
      c = '-' ∨ (c ∈ xs ∧ pyIsAlnum c = true) := by
  intro xs
  induction xs with
  | nil => intro h; simp [slugMap] at h
  | cons a rest ih =>
    intro h
    simp only [slugMap] at h
    split at h
    · rcases List.mem_cons.mp h with h | h
      · subst h
        right
        exact ⟨List.mem_cons_self _ _, by assumption⟩
      · rcases ih h with h | ⟨hm, ha⟩
        · exact Or.inl h
        · exact Or.inr ⟨List.mem_cons_of_mem _ hm, ha⟩
    · split at h
      · rcases List.mem_cons.mp h with h | h
        · exact Or.inl h
        · rcases ih h with h | ⟨hm, ha⟩
          · exact Or.inl h
          · exact Or.inr ⟨List.mem_cons_of_mem _ hm, ha⟩
      · rcases ih h with h | ⟨hm, ha⟩
        · exact Or.inl h
        · exact Or.inr ⟨List.mem_cons_of_mem _ hm, ha⟩

theorem slugMap_eq_self {pyIsAlnum : Char → Bool} {xs : List Char}
    (h : ∀ c ∈ xs, pyIsAlnum c = true ∨ c = '-') :
    slugMap pyIsAlnum xs = xs := by
  induction xs with
  | nil => rfl
  | cons a rest ih =>
    have ha := h a (List.mem_cons_self _ _)
    have hrest := ih (fun c hc => h c (List.mem_cons_of_mem _ hc))
    rcases ha with ha | ha
    · simp [slugMap, ha, hrest]
    · subst ha
      by_cases hal : pyIsAlnum '-' = true
      · simp [slugMap, hal, hrest]
      · simp [slugMap, hal, hrest]

theorem hasDoubleHyphen_iff :
    ∀ cs : List Char, hasDoubleHyphen cs = true ↔ ∃ l r, cs = l ++ '-' :: '-' :: r := by
  intro cs
  induction cs with
  | nil =>
    simp only [hasDoubleHyphen]
    constructor
    · intro h; exact absurd h (by simp)
    · rintro ⟨l, r, h⟩
      cases l <;> simp_all
  | cons a rest ih =>
    cases rest with
    | nil =>
      simp only [hasDoubleHyphen]
      constructor
      · intro h; exact absurd h (by simp)
      · rintro ⟨l, r, h⟩
        have := congrArg List.length h
        simp at this
        omega
    | cons b t =>
      have hunfold : hasDoubleHyphen (a :: b :: t) =
          (((a == '-') && (b == '-')) || hasDoubleHyphen (b :: t)) := rfl
      rw [hunfold]
      simp only [Bool.or_eq_true, Bool.and_eq_true, beq_iff_eq]
      constructor
      · rintro (⟨rfl, rfl⟩ | h)
        · exact ⟨[], t, rfl⟩
        · obtain ⟨l, r, hlr⟩ := ih.mp h
          exact ⟨a :: l, r, by simp [hlr]⟩
      · rintro ⟨l, r, hlr⟩
        cases l with
        | nil =>
          simp only [List.nil_append, List.cons.injEq] at hlr
          exact Or.inl ⟨hlr.1, hlr.2.1⟩
        | cons x l' =>
          simp only [List.cons_append, List.cons.injEq] at hlr
          exact Or.inr (ih.mpr ⟨l', r, hlr.2⟩)

theorem hasDoubleHyphen_of_within {x y : List Char} (u v : List Char)
    (hy : y = u ++ x ++ v) (hx : hasDoubleHyphen x = true) :
    hasDoubleHyphen y = true := by
  obtain ⟨l, r, hlr⟩ := (hasDoubleHyphen_iff x).mp hx
  refine (hasDoubleHyphen_iff y).mpr ⟨u ++ l, r ++ v, ?_⟩
  subst hy hlr
  simp

theorem mem_replaceDoubleHyphen {c : Char} :
    ∀ {xs : List Char}, c ∈ replaceDoubleHyphen xs → c ∈ xs := by
  intro xs
  induction xs using replaceDoubleHyphen.induct with
  | case1 => intro h; simp [replaceDoubleHyphen] at h
  | case2 d => intro h; simpa [replaceDoubleHyphen] using h
  | case3 a b t hab ih =>
    intro h
    rw [replaceDoubleHyphen, if_pos hab] at h
    simp only [Bool.and_eq_true, beq_iff_eq] at hab
    rcases List.mem_cons.mp h with h | h
    · subst h
      simp [hab.1]
    · simp [List.mem_cons_of_mem _ (List.mem_cons_of_mem _ (ih h))]
  | case4 a b t hab ih =>
    intro h
    rw [replaceDoubleHyphen, if_neg hab] at h
    rcases List.mem_cons.mp h with h | h
    · simp [h]
    · simp [List.mem_cons_of_mem _ (ih h)]

theorem replaceDoubleHyphen_length_le :
    ∀ xs : List Char, (replaceDoubleHyphen xs).length ≤ xs.length := by
  intro xs
  induction xs using replaceDoubleHyphen.induct with
  | case1 => simp [replaceDoubleHyphen]
  | case2 d => simp [replaceDoubleHyphen]
  | case3 a b t hab ih =>
    rw [replaceDoubleHyphen, if_pos hab]
    simp only [List.length_cons]
    omega
  | case4 a b t hab ih =>
    rw [replaceDoubleHyphen, if_neg hab]
    simp only [List.length_cons] at ih ⊢
    omega

theorem replaceDoubleHyphen_length_lt :
    ∀ xs : List Char, hasDoubleHyphen xs = true →
      (replaceDoubleHyphen xs).length < xs.length := by
  intro xs
  induction xs using replaceDoubleHyphen.induct with
  | case1 => intro h; simp [hasDoubleHyphen] at h
  | case2 d => intro h; simp [hasDoubleHyphen] at h
  | case3 a b t hab ih =>
    intro h
    rw [replaceDoubleHyphen, if_pos hab]
    have := replaceDoubleHyphen_length_le t
    simp only [List.length_cons]
    omega
  | case4 a b t hab ih =>
    intro h
    rw [replaceDoubleHyphen, if_neg hab]
    have hdd : hasDoubleHyphen (b :: t) = true := by
      have hunfold : hasDoubleHyphen (a :: b :: t) =
          (((a == '-') && (b == '-')) || hasDoubleHyphen (b :: t)) := rfl
      rw [hunfold] at h
      rcases Bool.or_eq_true_iff.mp h with h | h
      · exact absurd h (by simpa using hab)
      · exact h
    have := ih hdd
    simp only [List.length_cons] at this ⊢
    omega

theorem collapse_loop_noDD :
    ∀ (fuel : Nat) (cs : List Char), cs.length ≤ fuel →
      hasDoubleHyphen (collapse_loop fuel cs) = false := by
  intro fuel
  induction fuel with
  | zero =>
    intro cs h
    have : cs = [] := List.length_eq_zero.mp (by omega)
    subst this
    rfl
  | succ fuel ih =>
    intro cs h
    rw [collapse_loop]
    by_cases hdd : hasDoubleHyphen cs = true
    · rw [if_pos hdd]
      have := replaceDoubleHyphen_length_lt cs hdd
      exact ih _ (by omega)
    · rw [if_neg hdd]
      exact Bool.eq_false_iff.mpr hdd

theorem collapse_loop_of_noDD (fuel : Nat) (cs : List Char)
    (h : hasDoubleHyphen cs = false) : collapse_loop fuel cs = cs := by
  cases fuel with
  | zero => rfl
  | succ fuel => simp [collapse_loop, h]

theorem mem_collapse_loop {c : Char} :
    ∀ (fuel : Nat) {cs : List Char}, c ∈ collapse_loop fuel cs → c ∈ cs := by
  intro fuel
  induction fuel with
  | zero => intro cs h; exact h
  | succ fuel ih =>
    intro cs h
    rw [collapse_loop] at h
    split at h
    · exact mem_replaceDoubleHyphen (ih h)
    · exact h

theorem dropWhile_eq_self_of_all {p : Char → Bool} {cs : List Char}
    (h : ∀ c ∈ cs, p c = false) : cs.dropWhile p = cs := by
  cases cs with
  | nil => rfl
  | cons a t =>
    rw [List.dropWhile_cons_of_neg]
    simp [h a (List.mem_cons_self _ _)]

theorem rdropWhile_eq_self_of_all {p : Char → Bool} {cs : List Char}
    (h : ∀ c ∈ cs, p c = false) : List.rdropWhile p cs = cs := by
  rw [List.rdropWhile_eq_self_iff]
  intro hl hc
  have := h _ (List.getLast_mem hl)
  simp [this] at hc

theorem head?_of_append_decomp {s t l : List Char} {c : Char}
    (hd : s ++ t = l) (hh : s.head? = some c) : l.head? = some c := by
  cases s with
  | nil => simp at hh
  | cons a s' =>
    simp only [List.head?_cons, Option.some.injEq] at hh
    subst hh
    rw [← hd]
    rfl

theorem stripHyphens_within (cs : List Char) :
    ∃ u v, cs = u ++ stripHyphens cs ++ v := by
  obtain ⟨u, hu⟩ := List.dropWhile_suffix (l := cs) (fun c => c == '-')
  have hpre := List.rdropWhile_prefix (fun c => c == '-') (cs.dropWhile (fun c => c == '-'))
  obtain ⟨v, hv⟩ := hpre
  have hglue : u ++ (stripHyphens cs ++ v) = cs := by
    rw [stripHyphens, hv, hu]
  refine ⟨u, v, ?_⟩
  conv_lhs => rw [← hglue]
  rw [List.append_assoc]

theorem mem_stripHyphens {c : Char} {cs : List Char}
    (h : c ∈ stripHyphens cs) : c ∈ cs := by
  obtain ⟨u, v, huv⟩ := stripHyphens_within cs
  rw [huv]
  simp only [List.mem_append]
  tauto

theorem stripHyphens_head {cs : List Char} {c : Char}
    (h : (stripHyphens cs).head? = some c) : c ≠ '-' := by
  have hpre := List.rdropWhile_prefix (fun c => c == '-') (cs.dropWhile (fun c => c == '-'))
  obtain ⟨t, ht⟩ := hpre
  have hm : (cs.dropWhile (fun c => c == '-')).head? = some c :=
    head?_of_append_decomp ht h
  have h0 := List.head?_dropWhile_not (fun c => c == '-') cs
  rw [hm] at h0
  simpa using h0

theorem stripHyphens_last {cs : List Char} {c : Char}
    (h : (stripHyphens cs).getLast? = some c) : c ≠ '-' := by
  have hne : stripHyphens cs ≠ [] := by
    intro hnil
    rw [hnil] at h
    simp at h
  have hlast := List.rdropWhile_last_not (fun c => c == '-')
    (cs.dropWhile (fun c => c == '-')) hne
  rw [List.getLast?_eq_getLast _ hne] at h
  simp only [Option.some.injEq] at h
  subst h
  simpa using hlast

theorem stripHyphens_eq_self {cs : List Char}
    (hh : cs.head? ≠ some '-') (hl : cs.getLast? ≠ some '-') :
    stripHyphens cs = cs := by
  have hdrop : cs.dropWhile (fun c => c == '-') = cs := by
    cases cs with
    | nil => rfl
    | cons a t =>
      rw [List.dropWhile_cons_of_neg]
      simp only [List.head?_cons, ne_eq, Option.some.injEq] at hh
      simp [hh]
  rw [stripHyphens, hdrop, List.rdropWhile_eq_self_iff]
  intro hne hc
  rw [List.getLast?_eq_getLast _ hne] at hl
  simp only [beq_iff_eq] at hc
  exact hl (by rw [hc])

theorem pyStrip_eq_self {cs : List Char}
    (h : ∀ c ∈ cs, c.isWhitespace = false) : pyStrip cs = cs := by
  rw [pyStrip, dropWhile_eq_self_of_all h, rdropWhile_eq_self_of_all h]

theorem mem_pyStrip {c : Char} {cs : List Char} (h : c ∈ pyStrip cs) : c ∈ cs := by
  obtain ⟨u, hu⟩ := List.dropWhile_suffix (l := cs) Char.isWhitespace
  have hpre := List.rdropWhile_prefix Char.isWhitespace (cs.dropWhile Char.isWhitespace)
  obtain ⟨v, hv⟩ := hpre
  have hglue : u ++ (pyStrip cs ++ v) = cs := by
    rw [pyStrip, hv, hu]
  rw [← hglue]
  simp only [List.mem_append]
  tauto

/-! ### The slug output facts -/

theorem nfkd_pass_eq_self {nfkd : Char → List Char} {isCombining : Char → Bool} :
    ∀ {r : List Char}, (∀ c ∈ r, nfkd c = [c] ∧ isCombining c = false) →
      ((r.map nfkd).flatten).filter (fun c => !isCombining c) = r := by
  intro r
  induction r with
  | nil => intro h; rfl
  | cons c r' ih =>
    intro h
    have hc := h c (List.mem_cons_self _ _)
    rw [List.map_cons, List.flatten_cons, hc.1, List.singleton_append, List.filter_cons_of_pos]
    · rw [ih (fun d hd => h d (List.mem_cons_of_mem _ hd))]
    · simp [hc.2]

/-- Provenance of slug output characters: each one is a hyphen or a kept
alphanumeric that came out of the NFKD decomposition of some input character,
survived the combining-mark filter, and was lowercased. -/
theorem slug_data_src (nfkd : Char → List Char) (isCombining : Char → Bool)
    (pyLower : Char → Char) (pyIsAlnum : Char → Bool) (s : String) :
    ∀ c ∈ (_slug nfkd isCombining pyLower pyIsAlnum s).data,
      c = '-' ∨ (pyIsAlnum c = true ∧
        ∃ e d, d ∈ nfkd e ∧ isCombining d = false ∧ pyLower d = c) := by
  intro c hc
  have hc1 : c ∈ slugMap pyIsAlnum (pyStrip
      (((((s.data.map nfkd).flatten).filter (fun c => !isCombining c))).map pyLower)) :=
    mem_collapse_loop _ (mem_stripHyphens hc)
  rcases mem_slugMap hc1 with h | ⟨hm, halnum⟩
  · exact Or.inl h
  · right
    refine ⟨halnum, ?_⟩
    have hm2 : c ∈ ((((s.data.map nfkd).flatten).filter (fun c => !isCombining c))).map pyLower :=
      mem_pyStrip hm
    obtain ⟨d, hd, hdc⟩ := List.mem_map.mp hm2
    have hd2 := List.mem_filter.mp hd
    obtain ⟨l, hl, hdl⟩ := List.mem_flatten.mp hd2.1
    obtain ⟨e, _, hle⟩ := List.mem_map.mp hl
    rw [← hle] at hdl
    refine ⟨e, d, hdl, ?_, hdc⟩
    simpa using hd2.2

theorem slug_data_noDD (nfkd : Char → List Char) (isCombining : Char → Bool)
    (pyLower : Char → Char) (pyIsAlnum : Char → Bool) (s : String) :
    hasDoubleHyphen (_slug nfkd isCombining pyLower pyIsAlnum s).data = false := by
  by_contra hdd
  rw [Bool.not_eq_false] at hdd
  obtain ⟨u, v, huv⟩ :=
    stripHyphens_within (collapseHyphens (slugMap pyIsAlnum (pyStrip
      (((((s.data.map nfkd).flatten).filter (fun c => !isCombining c))).map pyLower))))
  have h1 : hasDoubleHyphen
      (collapseHyphens (slugMap pyIsAlnum (pyStrip
        (((((s.data.map nfkd).flatten).filter (fun c => !isCombining c))).map pyLower)))) = true :=
    hasDoubleHyphen_of_within u v huv hdd
  have h2 := collapse_loop_noDD
    (slugMap pyIsAlnum (pyStrip
      (((((s.data.map nfkd).flatten).filter (fun c => !isCombining c))).map pyLower))).length
    (slugMap pyIsAlnum (pyStrip
      (((((s.data.map nfkd).flatten).filter (fun c => !isCombining c))).map pyLower)))
    (Nat.le_refl _)
  rw [collapseHyphens] at h1
  rw [h2] at h1
  exact absurd h1 (by simp)

theorem slug_data_head (nfkd : Char → List Char) (isCombining : Char → Bool)
    (pyLower : Char → Char) (pyIsAlnum : Char → Bool) (s : String) :
    (_slug nfkd isCombining pyLower pyIsAlnum s).data.head? ≠ some '-' := by
  intro h
  exact stripHyphens_head h rfl

theorem slug_data_last (nfkd : Char → List Char) (isCombining : Char → Bool)
    (pyLower : Char → Char) (pyIsAlnum : Char → Bool) (s : String) :
    (_slug nfkd isCombining pyLower pyIsAlnum s).data.getLast? ≠ some '-' := by
  intro h
  exact stripHyphens_last h rfl

/-- C10 (amended): slug output is canonical in the Unicode sense — every
character is a hyphen or a Python-alphanumeric character in the image of
lowercasing, hyphens are never repeated and never lead or trail — and `_slug`
is idempotent, given the Unicode-table facts that lowercasing an NFKD-stable
non-combining character yields an NFKD-stable, non-combining,
lowercase-idempotent character, and that the hyphen itself is NFKD-stable,
non-combining and lowercase-fixed. -/
theorem slug_canonical_and_idempotent (nfkd : Char → List Char) (isCombining : Char → Bool)
    (pyLower : Char → Char) (pyIsAlnum : Char → Bool) (s : String)
    (hws : ∀ c, pyIsAlnum c = true → c.isWhitespace = false)
    (hstable : ∀ e d, d ∈ nfkd e → isCombining d = false →
      nfkd (pyLower d) = [pyLower d] ∧ isCombining (pyLower d) = false ∧
      pyLower (pyLower d) = pyLower d)
    (hhyph : nfkd '-' = ['-'] ∧ isCombining '-' = false ∧ pyLower '-' = '-') :
    (∀ c ∈ (_slug nfkd isCombining pyLower pyIsAlnum s).data,
      c = '-' ∨ (pyIsAlnum c = true ∧ ∃ d, pyLower d = c)) ∧
    hasDoubleHyphen (_slug nfkd isCombining pyLower pyIsAlnum s).data = false ∧
    (_slug nfkd isCombining pyLower pyIsAlnum s).data.head? ≠ some '-' ∧
    (_slug nfkd isCombining pyLower pyIsAlnum s).data.getLast? ≠ some '-' ∧
    _slug nfkd isCombining pyLower pyIsAlnum
        (_slug nfkd isCombining pyLower pyIsAlnum s) =
      _slug nfkd isCombining pyLower pyIsAlnum s := by
  refine ⟨?_, slug_data_noDD nfkd isCombining pyLower pyIsAlnum s,
    slug_data_head nfkd isCombining pyLower pyIsAlnum s,
    slug_data_last nfkd isCombining pyLower pyIsAlnum s, ?_⟩
  · intro c hc
    rcases slug_data_src nfkd isCombining pyLower pyIsAlnum s c hc with
      h | ⟨h1, _, d, _, _, h2⟩
    · exact Or.inl h
    · exact Or.inr ⟨h1, d, h2⟩
  · have hsrc := slug_data_src nfkd isCombining pyLower pyIsAlnum s
    have hnoDD := slug_data_noDD nfkd isCombining pyLower pyIsAlnum s
    have hh := slug_data_head nfkd isCombining pyLower pyIsAlnum s
    have hl := slug_data_last nfkd isCombining pyLower pyIsAlnum s
    set r := (_slug nfkd isCombining pyLower pyIsAlnum s).data with hr
    have hfacts : ∀ c ∈ r, nfkd c = [c] ∧ isCombining c = false ∧ pyLower c = c ∧
        c.isWhitespace = false ∧ (pyIsAlnum c = true ∨ c = '-') := by
      intro c hc
      rcases hsrc c hc with hch | ⟨halnum, e, d, hde, hdc, hlc⟩
      · subst hch
        exact ⟨hhyph.1, hhyph.2.1, hhyph.2.2, by decide, Or.inr rfl⟩
      · have hst := hstable e d hde hdc
        rw [hlc] at hst
        exact ⟨hst.1, hst.2.1, hst.2.2, hws c halnum, Or.inl halnum⟩
    have hpass : ((r.map nfkd).flatten).filter (fun c => !isCombining c) = r :=
      nfkd_pass_eq_self (fun c hc => ⟨(hfacts c hc).1, (hfacts c hc).2.1⟩)
    have hmap : r.map pyLower = r := by
      rw [List.map_congr_left (g := id) ?_, List.map_id]
      intro c hc
      exact (hfacts c hc).2.2.1
    have hstrip : pyStrip r = r :=
      pyStrip_eq_self (fun c hc => (hfacts c hc).2.2.2.1)
    have hslugMap : slugMap pyIsAlnum r = r :=
      slugMap_eq_self (fun c hc => (hfacts c hc).2.2.2.2)
    have hcollapse : collapseHyphens r = r := collapse_loop_of_noDD _ _ hnoDD
    have hstripH : stripHyphens r = r := stripHyphens_eq_self hh hl
    show _slug nfkd isCombining pyLower pyIsAlnum
        (_slug nfkd isCombining pyLower pyIsAlnum s) =
      _slug nfkd isCombining pyLower pyIsAlnum s
    have hdata : (_slug nfkd isCombining pyLower pyIsAlnum s).data = r := rfl
    calc _slug nfkd isCombining pyLower pyIsAlnum
          (_slug nfkd isCombining pyLower pyIsAlnum s)
        = String.mk (stripHyphens (collapseHyphens (slugMap pyIsAlnum (pyStrip
            (((((_slug nfkd isCombining pyLower pyIsAlnum s).data.map nfkd).flatten).filter
              (fun c => !isCombining c)).map pyLower))))) := rfl
      _ = String.mk r := by
            rw [hdata, hpass, hmap, hstrip, hslugMap, hcollapse, hstripH]
      _ = _slug nfkd isCombining pyLower pyIsAlnum s := rfl

/-- C10 witness: the amended theorem applied to the basic-latin instance of
the primitives, where the three table hypotheses are provable outright, at a
concrete name. -/
theorem slug_canonical_and_idempotent_witness :
    _slug_latin (_slug_latin "Ana Ruiz") = _slug_latin "Ana Ruiz" :=
  (slug_canonical_and_idempotent (fun c => [c]) (fun _ => false) Char.toLower
    Char.isAlphanum "Ana Ruiz"
    (fun c h => char_isAlphanum_not_ws c h)
    (fun _ d _ _ => ⟨rfl, rfl, char_toLower_idem d⟩)
    ⟨rfl, rfl, char_toLower_eq_self '-' (by decide)⟩).2.2.2.2

/-- Modelled from the Unicode character database, restricted to the code
points the counterexample evaluates (basic latin and U+00DF): none of them
has an NFKD decomposition. -/
def nfkd_frag : Char → List Char := fun c => [c]

/-- None of the evaluated code points is a combining mark. -/
def combining_frag : Char → Bool := fun _ => false

/-- Python `str.lower` on the evaluated code points: the basic-latin case
mapping, and U+00DF is its own lowercase (`Char.toLower` fixes it). -/
def lower_frag : Char → Char := Char.toLower

/-- Python `str.isalnum` on the evaluated code points: the basic-latin
alphanumerics, plus U+00DF which Python reports alphanumeric. -/
def isalnum_frag (c : Char) : Bool := c.isAlphanum || c == 'ß'

/-- C10 counterexample: Python keeps non-ASCII alphanumerics, so the slug of
"ß" (U+00DF: no NFKD decomposition, not combining, its own lowercase,
alphanumeric to `str.isalnum`) is "ß" itself — a character that is neither an
ASCII lowercase letter nor a digit nor a hyphen.  The claim that every slug
consists only of lowercase letters, digits and hyphens is therefore false of
the program. -/
theorem slug_ascii_canonicality_counterexample :
    _slug nfkd_frag combining_frag lower_frag isalnum_frag "ß" = "ß" ∧
    ('ß' : Char).isLower = false ∧ ('ß' : Char).isDigit = false ∧ ('ß' : Char) ≠ '-' := by
  refine ⟨by decide, by decide, by decide, by decide⟩

/-! ## Photo resolution (lines 53-64, 258-299) and `build_one` (lines 372-403)

File-system behaviour is abstracted: `pathExists` models `os.path.exists`,
`isDir` models `os.path.isdir(photos_dir)` and `dirListing` models
`os.listdir(photos_dir)`.  `PROJECT_ROOT` (computed from `__file__` at line
24) is modelled as an opaque absolute path constant. -/

/-- POSIX model of `os.path.isabs`. -/
def isAbs (s : String) : Bool :=
  match s.data with
  | '/' :: _ => true
  | _ => false

/-- Python `str.lower()` (basic latin range, like `Char.toLower`). -/
def strToLower (s : String) : String := String.mk (s.data.map Char.toLower)

/-- Model of `os.path.join` for the cases the script exercises: a directory without a
trailing slash joined with one component; an absolute second component
replaces the first. -/
def pathJoin (a b : String) : String := if isAbs b then b else a ++ "/" ++ b

def PROJECT_ROOT : String := "/project"

/-- The constant `os.path.join(PROJECT_ROOT, 'cv_template', 'assets', 'photos')` (line 26). -/
def DEFAULT_PHOTOS_DIR : String :=
  pathJoin (pathJoin (pathJoin PROJECT_ROOT "cv_template") "assets") "photos"

/-- Python truthiness of an optional string (`if not ruta`). -/
def optStrTruthy : Option String → Bool
  | none => false
  | some s => s ≠ ""

/-- The resolver `resolve_photo_path` (lines 53-64): absolute paths must exist verbatim;
relative paths are probed against the project root, then against the photos
directory; otherwise `None`. -/
def resolve_photo_path (pathExists : String → Bool) (ruta : Option String) : Option String :=
  match ruta with
  | none => none
  | some s =>
    if s = "" then none
    else if isAbs s then (if pathExists s then some s else none)
    else if pathExists (pathJoin PROJECT_ROOT s) then some (pathJoin PROJECT_ROOT s)
    else if pathExists (pathJoin DEFAULT_PHOTOS_DIR s) then some (pathJoin DEFAULT_PHOTOS_DIR s)
    else none

/-- Index of the last occurrence of a character, used by `splitext`. -/
def lastIdxOf (c : Char) (cs : List Char) : Option Nat :=
  match cs.reverse.findIdx? (fun d => d == c) with
  | none => none
  | some j => some (cs.length - 1 - j)

/-- Model of `os.path.splitext` restricted to plain basenames (no directory
separators): split at the last dot, unless every character before that dot is
itself a dot (so `.bashrc` has no extension). -/
def splitext (s : String) : String × String :=
  match lastIdxOf '.' s.data with
  | none => (s, "")
  | some i =>
    if (s.data.take i).all (fun c => c == '.') then (s, "")
    else (String.mk (s.data.take i), String.mk (s.data.drop i))

/-- The probing order of `_find_photo_by_basename` and the allowed extensions
of `_find_photo_by_name_guess` (lines 268, 287). -/
def photo_exts : List String := [".png", ".jpg", ".jpeg", ".webp"]

/-- Python `s.endswith(suffix)`. -/
def strEndsWith (hay suf : String) : Bool := suf.data.isSuffixOf hay.data

/-- The preference scan of `_find_photo_by_basename` (lines 273-277): for
each preferred extension in order, the first candidate whose lowercased name
ends with it. -/
def prefScan (prefs : List String) (cands : List String) : Option String :=
  match prefs with
  | [] => none
  | pref :: rest =>
    match cands.find? (fun c => strEndsWith (strToLower c) pref) with
    | some c => some c
    | none => prefScan rest cands

/-- The matcher `_find_photo_by_basename` (lines 258-278): with an extension, check the
exact name; without one, probe the fixed extension list and prefer
png > jpg > jpeg > webp among the existing candidates. -/
def _find_photo_by_basename (pathExists : String → Bool) (photos_dir : String)
    (base : String) : Option String :=
  if base = "" then none
  else
    let stem := (splitext base).1
    let ext := (splitext base).2
    if ext ≠ "" then
      if pathExists (pathJoin photos_dir base) then some (pathJoin photos_dir base) else none
    else
      let candidates := photo_exts.filterMap (fun e =>
        if pathExists (pathJoin photos_dir (stem ++ e))
        then some (pathJoin photos_dir (stem ++ e)) else none)
      prefScan photo_exts candidates

/-- Python `needle in hay` on strings. -/
def strContainsSub (hay needle : String) : Bool :=
  (List.range (hay.data.length + 1)).any (fun i => needle.data.isPrefixOf (hay.data.drop i))

/-- The directory scan of `_find_photo_by_name_guess` (lines 289-296). -/
def guess_scan (pathExists : String → Bool) (photos_dir : String) (slugName : String) :
    List String → Option String
  | [] => none
  | fn :: rest =>
    let stem := (splitext fn).1
    let ext := (splitext fn).2
    if strToLower ext ∈ photo_exts then
      let s_stem := _slug_latin stem
      if strContainsSub s_stem slugName || strContainsSub slugName s_stem then
        if pathExists (pathJoin photos_dir fn) then some (pathJoin photos_dir fn)
        else guess_scan pathExists photos_dir slugName rest
      else guess_scan pathExists photos_dir slugName rest
    else guess_scan pathExists photos_dir slugName rest

/-- The matcher `_find_photo_by_name_guess` (lines 281-299): slug the person's name and
scan the directory for a bidirectional slug-substring match with an allowed
extension.  The `try/except` around the scan cannot fire in this pure model. -/
def _find_photo_by_name_guess (pathExists : String → Bool) (isDir : Bool)
    (dirListing : List String) (photos_dir : String) (nombre : String) : Option String :=
  if nombre = "" then none
  else if !isDir then none
  else guess_scan pathExists photos_dir (_slug_latin nombre) dirListing

/-- The photo-path field as the `Optional[str]` the script passes around
(the loaders only ever store a string or `None` there; other value shapes
would make the Python `os.path` calls raise and are outside the model). -/
def jStrOpt : Option JValue → Option String
  | some (JValue.str s) => some s
  | _ => none

/-- Python `profile.get(k, default)` for a string-valued field. -/
def jGetStrD (p : Profile) (k : String) (d : String) : String :=
  match lookup' p k with
  | some (JValue.str s) => s
  | _ => d

/-- Back from an optional path to the stored JSON value. -/
def optToJ : Option String → JValue
  | some s => JValue.str s
  | none => JValue.null

/-- The value `build_one` assigns to `data['ruta_foto']` (lines 380-400):
explicit resolution first, then — when the photo is requested and resolution
failed — the fuzzy name guess; with processing requested, the processed path,
falling back to the resolved one when `preprocess_photo` raises
(`preprocessResult src = none`). -/
def build_one_ruta_foto (pathExists : String → Bool) (isDir : Bool)
    (dirListing : List String) (process_photos : Bool)
    (preprocessResult : String → Option String) (profile : Profile) : JValue :=
  let ruta0 := resolve_photo_path pathExists (jStrOpt (lookup' profile "ruta_foto"))
  let incluir := pyTruthy ((lookup' profile "incluir_foto").getD JValue.null)
  let ruta1 :=
    if incluir && !optStrTruthy ruta0 then
      let guess := _find_photo_by_name_guess pathExists isDir dirListing DEFAULT_PHOTOS_DIR
        (jGetStrD profile "nombre" "")
      if optStrTruthy guess then guess else ruta0
    else ruta0
  if incluir && optStrTruthy ruta1 && process_photos then
    match ruta1 with
    | some src =>
      match preprocessResult src with
      | some processed => JValue.str processed
      | none => JValue.str src
    | none => JValue.null
  else optToJ ruta1

/-- The record handed to `construir_cv` (line 403): the shallow copy
`data = dict(profile)` (line 378) with exactly the one assignment
`data['ruta_foto'] = ...`. -/
def build_one_data (pathExists : String → Bool) (isDir : Bool)
    (dirListing : List String) (process_photos : Bool)
    (preprocessResult : String → Option String) (profile : Profile) : Profile :=
  dictSet profile "ruta_foto"
    (build_one_ruta_foto pathExists isDir dirListing process_photos preprocessResult profile)

theorem lookup'_dictSet_ne (p : Profile) (k0 k : String) (v : JValue) (h : k ≠ k0) :
    lookup' (dictSet p k0 v) k = lookup' p k := by
  induction p with
  | nil =>
    simp only [dictSet, lookup']
    rw [if_neg (fun hc => h hc.symm)]
  | cons kv rest ih =>
    obtain ⟨k', v'⟩ := kv
    by_cases hk : k' = k0
    · subst hk
      simp only [dictSet, if_pos rfl, lookup']
      rw [if_neg (fun hc => h hc.symm), if_neg]
      intro hc
      exact h hc.symm
    · simp only [dictSet, if_neg hk, lookup']
      by_cases hk2 : k' = k
      · rw [if_pos hk2, if_pos hk2]
      · rw [if_neg hk2, if_neg hk2]
        exact ih

/-- The photos-directory file used in the C4 counterexample. -/
def photosJanePng : String := pathJoin DEFAULT_PHOTOS_DIR "jane.png"

/-- A file system holding exactly `assets/photos/jane.png`. -/
def janeFs : String → Bool := fun s => s == photosJanePng

/-- A profile requesting a photo with the extensionless explicit path
`jane`, for a person whose name matches no photo. -/
def profileJane : Profile :=
  [("nombre", JValue.str "Bob Smith"),
   ("incluir_foto", JValue.bool true),
   ("ruta_foto", JValue.str "jane")]

/-- C4 counterexample: with `jane.png` on disk and the explicit path `jane`
(no extension), explicit resolution fails and `build_one` ends with no photo
at all — it never consults the exact-basename matcher, which would have found
`jane.png` by extension probing.  So the orchestrator's chain has no exact
basename step between explicit resolution and the fuzzy name guess. -/
theorem build_one_no_basename_step_counterexample :
    _find_photo_by_basename janeFs DEFAULT_PHOTOS_DIR "jane" = some photosJanePng ∧
    resolve_photo_path janeFs (jStrOpt (lookup' profileJane "ruta_foto")) = none ∧
    build_one_ruta_foto janeFs true ["jane.png"] false (fun _ => none) profileJane =
      JValue.null := by
  refine ⟨by decide, by decide, rfl⟩

/-- C4 (amended): when the photo flag is set and the explicit path fails to
resolve (resolution itself probes the absolute path, the project root and the
photos directory verbatim, without extension probing), `build_one` falls back
directly to the fuzzy name guess on the person's name; the exact-basename
matcher is used only by the spreadsheet loader, never by the orchestrator. -/
theorem build_one_photo_fallback (pathExists : String → Bool) (isDir : Bool)
    (dirListing : List String) (preprocessResult : String → Option String)
    (profile : Profile)
    (hincluir : pyTruthy ((lookup' profile "incluir_foto").getD JValue.null) = true)
    (hruta : resolve_photo_path pathExists (jStrOpt (lookup' profile "ruta_foto")) = none) :
    build_one_ruta_foto pathExists isDir dirListing false preprocessResult profile =
      optToJ (if optStrTruthy (_find_photo_by_name_guess pathExists isDir dirListing
                DEFAULT_PHOTOS_DIR (jGetStrD profile "nombre" ""))
              then _find_photo_by_name_guess pathExists isDir dirListing
                DEFAULT_PHOTOS_DIR (jGetStrD profile "nombre" "")
              else none) := by
  simp only [build_one_ruta_foto, hruta, hincluir, optStrTruthy, Bool.not_false,
    Bool.and_true, Bool.true_and, Bool.and_false, Bool.false_eq_true, if_false, if_true]

/-- C4 witness: the fallback theorem applied to a concrete profile with the
photo flag set, no resolvable path and no photos directory. -/
theorem build_one_photo_fallback_witness :
    build_one_ruta_foto (fun _ => false) false [] false (fun _ => none)
      [("nombre", JValue.str "Ana"), ("incluir_foto", JValue.bool true)] =
      optToJ (if optStrTruthy (_find_photo_by_name_guess (fun _ => false) false []
                DEFAULT_PHOTOS_DIR (jGetStrD [("nombre", JValue.str "Ana"),
                  ("incluir_foto", JValue.bool true)] "nombre" ""))
              then _find_photo_by_name_guess (fun _ => false) false []
                DEFAULT_PHOTOS_DIR (jGetStrD [("nombre", JValue.str "Ana"),
                  ("incluir_foto", JValue.bool true)] "nombre" "")
              else none) :=
  build_one_photo_fallback (fun _ => false) false [] (fun _ => none)
    [("nombre", JValue.str "Ana"), ("incluir_foto", JValue.bool true)] rfl rfl

/-- C9: processing a profile never mutates it.  The record handed to the
renderer is the shallow copy with exactly the one key `ruta_foto` assigned,
so looking up any other key in the rendered record gives the original value,
and the original profile itself is untouched (the embedding returns it
unchanged alongside). -/
theorem build_one_frame (pathExists : String → Bool) (isDir : Bool)
    (dirListing : List String) (process_photos : Bool)
    (preprocessResult : String → Option String) (profile : Profile) (k : String)
    (hk : k ≠ "ruta_foto") :
    (∃ v, build_one_data pathExists isDir dirListing process_photos preprocessResult profile =
        dictSet profile "ruta_foto" v) ∧
    lookup' (build_one_data pathExists isDir dirListing process_photos preprocessResult profile) k =
      lookup' profile k := by
  constructor
  · exact ⟨build_one_ruta_foto pathExists isDir dirListing process_photos preprocessResult profile,
      rfl⟩
  · rw [build_one_data]
    exact lookup'_dictSet_ne profile "ruta_foto" k _ hk

/-- C9 witness: the frame theorem at a concrete profile — the name field
survives processing unchanged. -/
theorem build_one_frame_witness :
    lookup' (build_one_data (fun _ => false) false [] false (fun _ => none)
      [("nombre", JValue.str "Ana")]) "nombre" =
      lookup' [("nombre", JValue.str "Ana")] "nombre" :=
  (build_one_frame (fun _ => false) false [] false (fun _ => none)
    [("nombre", JValue.str "Ana")] "nombre" (by decide)).2

/-! ## The orchestrator's final count (`main`, lines 515-523) -/

/-- Terminal states of `build_one` as observed by `main`'s loop. -/
inductive BuildOutcome where
  | skippedInvalid : BuildOutcome
  | rendered : BuildOutcome
  | raised : BuildOutcome
  deriving DecidableEq

/-- The control-flow outcome of `build_one` (lines 372-403): an invalid
profile is logged and skipped by a plain `return` — not an exception — and
after the validation gate the only exceptions that escape are those of
`ensure_dir`/`construir_cv`, abstracted as the `renderRaises` oracle
(`preprocess_photo` failures are caught at line 396 and cannot escape). -/
def build_one_outcome (renderRaises : Profile → Bool) (p : Profile) : BuildOutcome :=
  if (validate_profile p).1 = false then BuildOutcome.skippedInvalid
  else if renderRaises p then BuildOutcome.raised
  else BuildOutcome.rendered

/-- The `count` printed by `main` (lines 515-523): incremented whenever
`build_one` returns without raising — including when it merely skipped the
profile as invalid. -/
def main_count (renderRaises : Profile → Bool) (perfiles : List Profile) : Nat :=
  perfiles.foldl
    (fun c p =>
      match build_one_outcome renderRaises p with
      | BuildOutcome.raised => c
      | _ => c + 1) 0

/-- The number of profiles actually rendered into documents. -/
def rendered_count (renderRaises : Profile → Bool) (perfiles : List Profile) : Nat :=
  (perfiles.filter (fun p => build_one_outcome renderRaises p == BuildOutcome.rendered)).length

/-- C1: the final summary count does not equal the number of successfully
rendered documents.  For the one-element list holding the empty (invalid)
profile and a renderer that never raises, `build_one` skips the profile as
invalid yet returns normally, so `main` counts it: the summary says 1 while 0
documents were produced.  (The other half of the claim does hold: a profile
whose render raises is not counted, as the last conjunct shows.) -/
theorem main_count_counts_skipped_profiles :
    main_count (fun _ => false) [[]] = 1 ∧
    rendered_count (fun _ => false) [[]] = 0 ∧
    build_one_outcome (fun _ => false) [] = BuildOutcome.skippedInvalid ∧
    main_count (fun _ => true) [profileAllEight] = 0 ∧
    rendered_count (fun _ => true) [profileAllEight] = 0 := by
  refine ⟨rfl, rfl, rfl, rfl, rfl⟩

/-! ## The merge Identity Key (`_profile_key_for_merge`, lines 418-425)

`json.dumps(p, ensure_ascii=False, sort_keys=True)` is embedded as a
serializer over `JValue`: object keys are sorted recursively, the separators
are the json module's defaults `', '` and `': '`, and strings are escaped the
way the json module escapes them (backslash, double quote, named control
escapes, `\u00XX` for remaining control characters).  On `JValue` inputs the
serializer is total, so the `except` fallback at line 423 is dead code in the
model. -/

def hexDigit (n : Nat) : Char :=
  if n < 10 then Char.ofNat (48 + n) else Char.ofNat (97 + (n - 10))

def jsonEscapeChar (c : Char) : String :=
  if c = '"' then "\\\""
  else if c = '\\' then "\\\\"
  else if c = '\n' then "\\n"
  else if c = '\t' then "\\t"
  else if c = '\r' then "\\r"
  else if c.toNat = 8 then "\\b"
  else if c.toNat = 12 then "\\f"
  else if c.toNat < 32 then
    String.mk ['\\', 'u', '0', '0', hexDigit (c.toNat / 16), hexDigit (c.toNat % 16)]
  else String.singleton c

def jsonQuote (s : String) : String :=
  "\"" ++ String.join (s.data.map jsonEscapeChar) ++ "\""

/-- Stable insertion into a key-sorted field list (how `sorted` on dict items
behaves; real dicts cannot carry duplicate keys). -/
def insertByKey (kv : String × JValue) : List (String × JValue) → List (String × JValue)
  | [] => [kv]
  | hd :: tl => if kv.1 < hd.1 then kv :: hd :: tl else hd :: insertByKey kv tl

def sortByKey : List (String × JValue) → List (String × JValue)
  | [] => []
  | kv :: rest => insertByKey kv (sortByKey rest)

mutual
/-- Recursively sort every object's keys — the effect of `sort_keys=True`. -/
def sortKeysJ : JValue → JValue
  | JValue.null => JValue.null
  | JValue.bool b => JValue.bool b
  | JValue.num n => JValue.num n
  | JValue.str s => JValue.str s
  | JValue.arr xs => JValue.arr (sortKeysArr xs)
  | JValue.obj fs => JValue.obj (sortByKey (sortKeysFields fs))

def sortKeysArr : List JValue → List JValue
  | [] => []
  | v :: vs => sortKeysJ v :: sortKeysArr vs

def sortKeysFields : List (String × JValue) → List (String × JValue)
  | [] => []
  | (k, v) :: fs => (k, sortKeysJ v) :: sortKeysFields fs
end

mutual
/-- Serialize a key-sorted value with the json module's default separators. -/
def serJ : JValue → String
  | JValue.null => "null"
  | JValue.bool b => cond b "true" "false"
  | JValue.num n => toString n
  | JValue.str s => jsonQuote s
  | JValue.arr xs => "[" ++ serArr xs ++ "]"
  | JValue.obj fs => "\x7b" ++ serFields fs ++ "\x7d"

def serArr : List JValue → String
  | [] => ""
  | [v] => serJ v
  | v :: vs => serJ v ++ ", " ++ serArr vs

def serFields : List (String × JValue) → String
  | [] => ""
  | [(k, v)] => jsonQuote k ++ ": " ++ serJ v
  | (k, v) :: fs => jsonQuote k ++ ": " ++ serJ v ++ ", " ++ serFields fs
end

/-- Model of `json.dumps(v, ensure_ascii=False, sort_keys=True)`. -/
def json_dumps_sorted (v : JValue) : String := serJ (sortKeysJ v)

/-- Python `str()` of a field value.  `str` of an actual string is the string
itself — the only case the profile data exercises (names and titles are
strings, and `p.get(k, '')` yields `''` when the key is absent); `None`,
booleans and integers also render exactly as Python does.  For lists and
dicts Python would produce `repr` text; those shapes are rendered through the
JSON serializer instead, which preserves the property the merge key relies
on: equal values map to equal strings. -/
def pyStr : JValue → String
  | JValue.str s => s
  | JValue.null => "None"
  | JValue.bool b => cond b "True" "False"
  | JValue.num n => toString n
  | v => json_dumps_sorted v

/-- Python `str.strip()` on a string. -/
def pyStripStr (s : String) : String := String.mk (pyStrip s.data)

/-- The dedup key type: (name, title, fingerprint). -/
abbrev MergeKey := String × String × String

/-- The key `_profile_key_for_merge` (lines 418-425): lowercased-trimmed name and
title plus the full-content fingerprint.  Over `JValue` the `json.dumps`
call cannot raise, so the `except` fallback (line 424) is dead code. -/
def _profile_key_for_merge (p : Profile) : MergeKey :=
  let nombre := strToLower (pyStripStr (pyStr ((lookup' p "nombre").getD (JValue.str ""))))
  let cargo := strToLower (pyStripStr (pyStr ((lookup' p "cargo").getD (JValue.str ""))))
  let fingerprint := json_dumps_sorted (JValue.obj p)
  (nombre, cargo, fingerprint)

/-! ## The two merge entry points (lines 428-448 and 491-509) -/

/-- The dedup loop of `merge_extra_into_profiles` (lines 438-445); the `seen`
set is modelled as the list of inserted keys, used only through membership. -/
def merge_dedup_loop (seen : List MergeKey) : List Profile → List Profile
  | [] => []
  | p :: ps =>
    let k := _profile_key_for_merge p
    if k ∈ seen then merge_dedup_loop seen ps
    else p :: merge_dedup_loop (k :: seen) ps

/-- The profile list `merge_extra_into_profiles` (lines 428-448) writes back
to the target file: `list(target) + list(extra)`, deduplicated. -/
def merge_extra_into_profiles_result (target extra : List Profile) : List Profile :=
  merge_dedup_loop [] (target ++ extra)

/-- The count `merge_extra_into_profiles` returns (line 448). -/
def merge_extra_into_profiles_count (target extra : List Profile) : Nat :=
  (merge_extra_into_profiles_result target extra).length

/-- The in-memory dedup loop of `main` (lines 498-505), transliterated from
its own code site. -/
def main_dedup_loop (seen : List MergeKey) : List Profile → List Profile
  | [] => []
  | p :: ps =>
    let k := _profile_key_for_merge p
    if k ∈ seen then main_dedup_loop seen ps
    else p :: main_dedup_loop (k :: seen) ps

/-- Model of `main`'s automatic in-memory merge (lines 492-507): `perfiles +
perfiles_extra`, deduplicated, leaving the on-disk store untouched. -/
def main_inmemory_merge (perfiles perfiles_extra : List Profile) : List Profile :=
  main_dedup_loop [] (perfiles ++ perfiles_extra)

/-- The `seen` set accumulated by the loop over a list. -/
def merge_seen_after (s : List MergeKey) (l : List Profile) : List MergeKey :=
  l.foldl
    (fun acc p =>
      if _profile_key_for_merge p ∈ acc then acc else _profile_key_for_merge p :: acc) s

theorem merge_dedup_loop_congr :
    ∀ (l : List Profile) (s s' : List MergeKey),
      (∀ k, k ∈ s ↔ k ∈ s') → merge_dedup_loop s l = merge_dedup_loop s' l := by
  intro l
  induction l with
  | nil => intro s s' h; rfl
  | cons p ps ih =>
    intro s s' h
    simp only [merge_dedup_loop]
    by_cases hk : _profile_key_for_merge p ∈ s
    · rw [if_pos hk, if_pos ((h _).mp hk)]
      exact ih s s' h
    · rw [if_neg hk, if_neg (fun hc => hk ((h _).mpr hc))]
      rw [ih (_profile_key_for_merge p :: s) (_profile_key_for_merge p :: s')]
      intro k
      simp only [List.mem_cons]
      rw [h k]

theorem merge_seen_after_cons (s : List MergeKey) (p : Profile) (l : List Profile) :
    merge_seen_after s (p :: l) =
      merge_seen_after
        (if _profile_key_for_merge p ∈ s then s else _profile_key_for_merge p :: s) l := rfl

theorem mem_merge_seen_after :
    ∀ (l : List Profile) (s : List MergeKey) (k : MergeKey),
      k ∈ merge_seen_after s l ↔ k ∈ s ∨ k ∈ l.map _profile_key_for_merge := by
  intro l
  induction l with
  | nil => intro s k; simp [merge_seen_after]
  | cons p ps ih =>
    intro s k
    rw [merge_seen_after_cons, ih]
    by_cases hk : _profile_key_for_merge p ∈ s
    · rw [if_pos hk]
      simp only [List.map_cons, List.mem_cons]
      constructor
      · rintro (h | h)
        · exact Or.inl h
        · exact Or.inr (Or.inr h)
      · rintro (h | h | h)
        · exact Or.inl h
        · rw [h]; exact Or.inl hk
        · exact Or.inr h
    · rw [if_neg hk]
      simp only [List.map_cons, List.mem_cons]
      tauto

theorem merge_dedup_loop_append :
    ∀ (A B : List Profile) (s : List MergeKey),
      merge_dedup_loop s (A ++ B) =
        merge_dedup_loop s A ++ merge_dedup_loop (merge_seen_after s A) B := by
  intro A
  induction A with
  | nil => intro B s; rfl
  | cons p A' ih =>
    intro B s
    simp only [List.cons_append, merge_dedup_loop, merge_seen_after_cons, List.append_eq]
    by_cases hk : _profile_key_for_merge p ∈ s
    · rw [if_pos hk, if_pos hk, if_pos hk, ih]
    · rw [if_neg hk, if_neg hk, if_neg hk, ih]
      rfl

theorem merge_dedup_loop_filter :
    ∀ (B : List Profile) (s s' u : List MergeKey),
      (∀ k, k ∈ s ↔ k ∈ s' ∨ k ∈ u) →
      merge_dedup_loop s B =
        merge_dedup_loop s'
          (B.filter (fun p => decide (_profile_key_for_merge p ∉ u))) := by
  intro B
  induction B with
  | nil => intro s s' u h; rfl
  | cons p B' ih =>
    intro s s' u h
    simp only [merge_dedup_loop, List.filter_cons, decide_eq_true_eq]
    by_cases hu : _profile_key_for_merge p ∈ u
    · rw [if_pos ((h _).mpr (Or.inr hu)), if_neg (fun hc => hc hu)]
      exact ih s s' u h
    · rw [if_pos hu]
      by_cases hs' : _profile_key_for_merge p ∈ s'
      · rw [if_pos ((h _).mpr (Or.inl hs'))]
        simp only [merge_dedup_loop]
        rw [if_pos hs']
        exact ih s s' u h
      · have hs : _profile_key_for_merge p ∉ s := by
          intro hc
          rcases (h _).mp hc with hc | hc
          · exact hs' hc
          · exact hu hc
        rw [if_neg hs]
        simp only [merge_dedup_loop]
        rw [if_neg hs']
        congr 1
        refine ih _ _ u ?_
        intro k
        simp only [List.mem_cons]
        rw [h k]
        tauto

theorem merge_dedup_loop_all_seen :
    ∀ (l : List Profile) (s : List MergeKey),
      (∀ p ∈ l, _profile_key_for_merge p ∈ s) → merge_dedup_loop s l = [] := by
  intro l
  induction l with
  | nil => intro s _; rfl
  | cons p ps ih =>
    intro s h
    simp only [merge_dedup_loop]
    rw [if_pos (h p (List.mem_cons_self _ _))]
    exact ih s (fun q hq => h q (List.mem_cons_of_mem _ hq))

/-- C5: the on-disk merge result is exactly the deduplicated target followed
by those extra profiles whose Identity Key does not occur in the target,
themselves deduplicated, all in original relative order. -/
theorem merge_order_preservation (A B : List Profile) :
    merge_extra_into_profiles_result A B =
      merge_dedup_loop [] A ++
        merge_dedup_loop []
          (B.filter (fun p =>
            decide (_profile_key_for_merge p ∉ A.map _profile_key_for_merge))) := by
  rw [merge_extra_into_profiles_result, merge_dedup_loop_append]
  congr 1
  refine merge_dedup_loop_filter B (merge_seen_after [] A) [] (A.map _profile_key_for_merge) ?_
  intro k
  rw [mem_merge_seen_after]

/-- C6: merging a collection with itself adds nothing — the result is the
collection's own internal deduplication, because every profile of the second
copy shares its Identity Key with the first copy. -/
theorem merge_idempotent (C : List Profile) :
    merge_extra_into_profiles_result C C = merge_dedup_loop [] C := by
  rw [merge_extra_into_profiles_result, merge_dedup_loop_append]
  rw [merge_dedup_loop_all_seen C (merge_seen_after [] C), List.append_nil]
  intro p hp
  rw [mem_merge_seen_after]
  exact Or.inr (List.mem_map_of_mem _ hp)

theorem merge_loops_eq :
    ∀ (l : List Profile) (s : List MergeKey), merge_dedup_loop s l = main_dedup_loop s l := by
  intro l
  induction l with
  | nil => intro s; rfl
  | cons p ps ih =>
    intro s
    simp only [merge_dedup_loop, main_dedup_loop]
    by_cases hk : _profile_key_for_merge p ∈ s
    · rw [if_pos hk, if_pos hk, ih]
    · rw [if_neg hk, if_neg hk, ih]

/-- C7: the persistent on-disk merge and the automatic in-memory merge have
identical merge semantics — on the same target and extra collections both
produce the same ordered, deduplicated sequence. -/
theorem merge_entry_points_agree (target extra : List Profile) :
    merge_extra_into_profiles_result target extra = main_inmemory_merge target extra := by
  rw [merge_extra_into_profiles_result, main_inmemory_merge, merge_loops_eq]

end BatchGenerateCv
